import Mathlib

/-!
# feathers-datastore — verification of the adapter core

A shallow embedding of `src/index.js` of the `feathers-datastore` adapter:
key construction (`makeKey`), the entity codec (`makeExplicitEntity`,
`entityToPlain`, `isBig`/`expandData`), the filter-query translation inside
`_find`, and the CRUD orchestration (`_create`, `_update`, `_patch`,
`_remove`) against a store modelled at the interface the adapter relies on.

JavaScript objects are modelled as association lists with unique keys
(`objGet` / `objSet` mirror property read and `obj[k] = v` assignment);
JavaScript numbers are modelled as rationals (the adapter only ever
manipulates them through `parseInt` / `parseFloat` and equality);
promise outcomes are modelled by `Settled` (fulfilled / rejected).
-/

namespace FeathersDatastore

mutual
/-- JavaScript values, as marshalled by the adapter: strings, numbers
(modelled as rationals — the adapter never performs float arithmetic,
only parsing and comparison), booleans, `null`, `undefined`, binary
buffers (kept as their byte list) and plain objects (name/value field
sequences). Datastore `Key` instances used as filter values are outside
this grammar; no settled claim depends on them. -/
inductive Value where
  | vstr (s : String)
  | vnum (q : ℚ)
  | vbool (b : Bool)
  | vnull
  | vundefined
  | vbin (bytes : List Nat)
  | vobj (fields : ObjFields)
deriving DecidableEq
/-- The field sequence of a JavaScript object value (names are unique in
any object produced by the runtime). -/
inductive ObjFields where
  | nil
  | fcons (name : String) (v : Value) (rest : ObjFields)
deriving DecidableEq
end

/-- One segment of a datastore key path: a kind or string name, or a
numeric id. -/
inductive PathElem where
  | str (s : String)
  | int (n : ℤ)
deriving DecidableEq

/-- A datastore key: a path of alternating kind / identifier segments plus
an optional namespace (`key.namespace` in the client). -/
structure Key where
  path : List PathElem
  nspace : Option String
deriving DecidableEq

/-- The service options fixed at construction (`this.id`, `this.kind`,
`this.namespace`, `this.autoIndex` in the constructor). -/
structure ServiceOpts where
  idProp : String
  kind : String
  nspace : Option String
  autoIndex : Bool
deriving DecidableEq

/-- The identifier argument accepted by `makeKey`: a string, a number
(numeric ids are integral in this service), `undefined` (create without
an explicit id), `null`, or a composite pre-built path (an array passed
straight to `store.key`). -/
inductive IdArg where
  | str (s : String)
  | int (n : ℤ)
  | undefined
  | null
  | comp (path : List PathElem)
deriving DecidableEq

/-- JavaScript whitespace skipped by `parseInt` / `parseFloat`. -/
def isJsWhitespace (c : Char) : Bool :=
  c = ' ' ∨ c = '\t' ∨ c = '\n' ∨ c = '\r'

/-- Value of a list of decimal digit characters. -/
def decVal (ds : List Char) : Nat :=
  ds.foldl (fun a c => a * 10 + (c.toNat - 48)) 0

/-- Hexadecimal digit recognizer for `parseInt`'s `0x` form. -/
def isHexDigitJS (c : Char) : Bool :=
  c.isDigit || ('a' ≤ c && c ≤ 'f') || ('A' ≤ c && c ≤ 'F')

/-- Value of one hexadecimal digit character. -/
def hexVal (c : Char) : Nat :=
  if c.isDigit then c.toNat - 48
  else if 'a' ≤ c ∧ c ≤ 'f' then c.toNat - 87
  else c.toNat - 55

/-- The digit-run part of `parseInt`, after whitespace and sign have been
consumed: the longest run of digits (hexadecimal after a `0x` / `0X`
prefix); `none` models `NaN` (no digits at all). -/
def parseIntCore (sgn : ℤ) (l1 : List Char) : Option ℤ :=
  match l1 with
  | '0' :: x :: rest =>
    if x = 'x' ∨ x = 'X' then
      let ds := rest.takeWhile isHexDigitJS
      if ds.isEmpty then none
      else some (sgn * (ds.foldl (fun a c => a * 16 + hexVal c) 0 : Nat))
    else
      some (sgn * (decVal (('0' :: x :: rest).takeWhile Char.isDigit) : Nat))
  | _ =>
    let ds := l1.takeWhile Char.isDigit
    if ds.isEmpty then none else some (sgn * (decVal ds : Nat))

/-- JavaScript `parseInt(s)` (radix auto-detected): skip whitespace, read an
optional sign, then the longest run of digits; `none` models `NaN`. Note
`parseInt` consumes a *prefix*: trailing non-digit characters are
ignored. -/
def parseIntJS (s : String) : Option ℤ :=
  match s.data.dropWhile isJsWhitespace with
  | '-' :: rest => parseIntCore (-1) rest
  | '+' :: rest => parseIntCore 1 rest
  | l => parseIntCore 1 l

/-- The numeral part of `parseFloat`, after whitespace and sign: digits
with an optional fraction and exponent, reading the longest valid prefix;
`none` models `NaN`. The parsed value `sign * (int.frac) * 10^exp` is
assembled as one exact rational. -/
def parseFloatCore (sgn : ℤ) (l1 : List Char) : Option ℚ :=
  let intDs := l1.takeWhile Char.isDigit
  let rest1 := l1.drop intDs.length
  let fracDs := match rest1 with
    | '.' :: r => r.takeWhile Char.isDigit
    | _ => []
  let rest2 := match rest1 with
    | '.' :: r => r.drop fracDs.length
    | _ => rest1
  if intDs.isEmpty ∧ fracDs.isEmpty then none
  else
    let num : ℕ := decVal intDs * Nat.pow 10 fracDs.length + decVal fracDs
    let expn : ℤ := match rest2 with
      | c :: r =>
        if c = 'e' ∨ c = 'E' then
          let esgn : ℤ := match r with
            | '-' :: _ => -1
            | _ => 1
          let r1 := match r with
            | '-' :: er => er
            | '+' :: er => er
            | _ => r
          let eds := r1.takeWhile Char.isDigit
          if eds.isEmpty then 0 else esgn * (decVal eds : Nat)
        else 0
      | [] => 0
    if 0 ≤ expn then
      some (mkRat (sgn * (num * Nat.pow 10 expn.toNat : ℕ)) (Nat.pow 10 fracDs.length))
    else
      some (mkRat (sgn * (num : ℕ)) (Nat.pow 10 fracDs.length * Nat.pow 10 (-expn).toNat))

/-- JavaScript `parseFloat(s)`: skip whitespace, optional sign, then the
longest valid decimal-literal prefix; `none` models `NaN`. The `Infinity`
literal is not modelled (the adapter never passes it). -/
def parseFloatJS (s : String) : Option ℚ :=
  match s.data.dropWhile isJsWhitespace with
  | '-' :: rest => parseFloatCore (-1) rest
  | '+' :: rest => parseFloatCore 1 rest
  | l => parseFloatCore 1 l

/-- A flat application record (`PlainRecord` in the spec): a JavaScript
object modelled as an association list with unique names. -/
abbrev PlainRecord := List (String × Value)

/-- Property read `r[name]`: the value of the first (hence, with unique
names, the only) binding; `none` models `undefined`. -/
def objGet (r : PlainRecord) (name : String) : Option Value :=
  (r.find? (fun p => p.1 = name)).map Prod.snd

/-- JavaScript property assignment `r[name] = v`: overwrite in place the
existing binding, else append a new one. -/
def objSet (r : PlainRecord) (name : String) (v : Value) : PlainRecord :=
  match r with
  | [] => [(name, v)]
  | p :: rest => if p.1 = name then (name, v) :: rest else p :: objSet rest name v

/-- `this.store.key(...)` as invoked from `makeKey`: `parseInt` coercion of
string ids, integral numeric ids kept as numbers, an omitted (`undefined`)
id yielding an incomplete key `[kind]`, a composite id used directly as the
path. A `null` id would be passed to `store.key(null)` by the source (the
`typeof null === 'object'` branch), which no service flow reaches — it is
modelled as an empty path. The namespace is `query.namespace` falling back
to the service default (`src/index.js` lines 238-259). -/
def makeKey (svc : ServiceOpts) (id : IdArg) (queryNamespace : Option String) : Key :=
  let key : Key := match id with
    | .comp p => ⟨p, none⟩
    | .null => ⟨[], none⟩
    | .str s =>
      match parseIntJS s with
      | some n => ⟨[.str svc.kind, .int n], none⟩
      | none => ⟨[.str svc.kind, .str s], none⟩
    | .int n => ⟨[.str svc.kind, .int n], none⟩
    | .undefined => ⟨[.str svc.kind], none⟩
  { key with nspace := queryNamespace.orElse (fun _ => svc.nspace) }

/-- Truncation toward zero, as JavaScript `parseInt` applied to a number. -/
def ratTrunc (q : ℚ) : ℤ := if 0 ≤ q then q.floor else q.ceil

/-- How a `Value` taken from a record's id property is passed to `makeKey`:
strings stay strings, numbers go through `parseInt` (truncation; the
identity on the integral ids this service works with). Other value shapes
are outside the service's id contract and are modelled as an omitted id. -/
def idArgOfValue : Value → IdArg
  | .vstr s => .str s
  | .vnum q => .int (ratTrunc q)
  | _ => .undefined

/-- One property of a store entity in explicit form, as built by
`expandData`: `{name, value}` plus the optional `excludeFromIndexes`
flag (absent when neither `dontIndex` nor `autoIndex` applies). -/
structure Property where
  name : String
  value : Value
  excludeFromIndexes : Option Bool
deriving DecidableEq

/-- An entity before expansion: `{ key, data }` with flat data, as pushed
by `_create` / `_update` / `_patch`. -/
structure Entity where
  key : Key
  data : PlainRecord
deriving DecidableEq

/-- An entity in explicit property-list form, as returned by
`makeExplicitEntity`. -/
structure ExplicitEntity where
  key : Key
  data : List Property
deriving DecidableEq

mutual
/-- `isBig` inside `makeExplicitEntity` (`src/index.js` lines 289-304):
strings and buffers are measured by their UTF-8 / raw byte length against
`MAX_INDEX_SIZE = 1500`; a non-null object is big when some of its values
is big (recursively); numbers, booleans, `null` and `undefined` are never
big. -/
def isBig : Value → Bool
  | .vstr s => 1500 < s.utf8ByteSize
  | .vbin bs => 1500 < bs.length
  | .vobj fs => isBigFields fs
  | _ => false
/-- `Object.keys(value).map(key => value[key]).some(isBig)` over an object
value's fields. -/
def isBigFields : ObjFields → Bool
  | .nil => false
  | .fcons _ v rest => isBig v || isBigFields rest
end

mutual
/-- The byte sizes of the indexable leaves (strings and buffers) of a
value, in order; used to state the size heuristic's specification. -/
def leafSizes : Value → List Nat
  | .vstr s => [s.utf8ByteSize]
  | .vbin bs => [bs.length]
  | .vobj fs => leafSizesFields fs
  | _ => []
/-- Leaf byte sizes of an object's fields, concatenated. -/
def leafSizesFields : ObjFields → List Nat
  | .nil => []
  | .fcons _ v rest => leafSizes v ++ leafSizesFields rest
end

/-- `addExclusions` inside `expandData` (`src/index.js` lines 308-316):
a name in `dontIndex` is excluded outright; otherwise, with `autoIndex`
enabled, the exclusion flag is the size check; otherwise the flag is left
unset. -/
def addExclusions (dontIndex : List String) (autoIndex : Bool)
    (name : String) (v : Value) : Property :=
  if dontIndex.contains name then ⟨name, v, some true⟩
  else if autoIndex then ⟨name, v, some (isBig v)⟩
  else ⟨name, v, none⟩

/-- `expandData` (`src/index.js` lines 306-321): every own property of the
data, in enumeration order, becomes one explicit property with its
exclusion flag. -/
def expandData (dontIndex : List String) (autoIndex : Bool)
    (data : PlainRecord) : List Property :=
  data.map (fun p => addExclusions dontIndex autoIndex p.1 p.2)

/-- `makeExplicitEntity` on a single entity (`src/index.js` lines 286-331,
non-array branch); `Datastore.getKey(entity)` is the entity's key. The
`dontIndex` / `autoIndex` options come from `options.query`, `autoIndex`
defaulting to the service flag at the call sites. -/
def makeExplicitEntityOne (dontIndex : List String) (autoIndex : Bool)
    (e : Entity) : ExplicitEntity :=
  ⟨e.key, expandData dontIndex autoIndex e.data⟩

/-- The per-item entity built by `_create` (`src/index.js` lines 72-82):
the key comes from the item's own id property when present
(`item.hasOwnProperty(this.id)`), else from an omitted id; the item itself
— id property included — becomes the entity data. -/
def createEntity (svc : ServiceOpts) (item : PlainRecord) : Entity :=
  match objGet item svc.idProp with
  | some v => ⟨makeKey svc (idArgOfValue v) none, item⟩
  | none => ⟨makeKey svc .undefined none, item⟩

/-- The explicit-format property list is deconstructed back to a flat
object by `entityToPlain`'s reduce (`src/index.js` lines 277-280). -/
def flattenProps (props : List Property) : PlainRecord :=
  props.foldl (fun flat p => objSet flat p.name p.value) []

/-- `Datastore.getKey(entity).path.slice(-1)[0]` as a value: the last
path element of the key, `undefined` on an empty path. -/
def pathLast (k : Key) : Value :=
  match k.path.getLast? with
  | some (.str s) => .vstr s
  | some (.int n) => .vnum (n : ℚ)
  | none => .vundefined

/-- `entityToPlain` on a single explicit entity (`src/index.js` lines
261-284, `alreadyFlat = false`): flatten the property list, then
`Object.assign({}, data, { [ID_PROP]: key.path.slice(-1)[0] })`. -/
def entityToPlain (idProp : String) (e : ExplicitEntity) : PlainRecord :=
  objSet (flattenProps e.data) idProp (pathLast e.key)

/-- `entityToPlain` with `alreadyFlat = true`, the shape used on entities
coming back from `store.get` / query runs: the entity is already a flat
object, its key carried alongside (the `datastore.KEY` symbol). -/
def entityToPlainFlat (idProp : String) (key : Key) (data : PlainRecord) : PlainRecord :=
  objSet data idProp (pathLast key)

/-! ## Query translation (`_find`, `src/index.js` lines 169-205) -/

/-- The `opMap` literal inside `_find`: the recognized operator keys and
their native comparison operators. The source tests `opMap[op]`
truthiness; every mapped operator string is truthy. -/
def opMap (op : String) : Option String :=
  if op = "$gt" then some ">"
  else if op = "$gte" then some ">="
  else if op = "$lt" then some "<"
  else if op = "$lte" then some "<="
  else if op = "=" then some "="
  else none

/-- `Object.entries` of an object value. -/
def fieldsToList : ObjFields → List (String × Value)
  | .nil => []
  | .fcons n v rest => (n, v) :: fieldsToList rest

/-- The inverse embedding of an entry list into an object value's
fields. -/
def listToFields : List (String × Value) → ObjFields
  | [] => .nil
  | (n, v) :: t => .fcons n v (listToFields t)

/-- The value normalization in `_find`: anything that is not an operator
mapping — a primitive, `null`, or a datastore `Key` — is wrapped as
`{ '=': value }`. An object value stands for an operator mapping. -/
def normalizeFilterValue (v : Value) : List (String × Value) :=
  match v with
  | .vobj fs => fieldsToList fs
  | other => [("=", other)]

/-- The numeric coercion applied to each operator value (`src/index.js`
lines 189-197): a string that `parseFloat` accepts (i.e. that starts with
a parsable decimal prefix) is replaced by the parsed number; everything
else passes through unchanged. -/
def coerceFilterValue (v : Value) : Value :=
  match v with
  | .vstr s =>
    match parseFloatJS s with
    | some q => .vnum q
    | none => .vstr s
  | other => other

/-- One emitted comparison: field name, native operator, value. -/
abbrev Filter := String × String × Value

/-- The comparisons emitted for one query field (`src/index.js` lines
186-200): normalize the value, keep the entries whose operator key is
recognized, coerce each value, and emit `(field, nativeOp, value)`. -/
def translateFieldFilter (field : String) (v : Value) : List Filter :=
  (normalizeFilterValue v).filterMap
    (fun p => (opMap p.1).map (fun nativeOp => (field, nativeOp, coerceFilterValue p.2)))

/-- The whole filter list built by the reduce over `Object.entries(query)`
(`src/index.js` lines 169-203). -/
def translateFilters (query : List (String × Value)) : List Filter :=
  query.flatMap (fun p => translateFieldFilter p.1 p.2)

/-! ## The store client, modelled at its interface

The `@google-cloud/datastore` client is an external collaborator (spec
§1, §7): `update` rejects with `{code: 400, message: 'no entity to
update'}` when the key does not exist, `upsert` creates-or-replaces,
`insert` is create-only, ancestor queries return every entity whose key
path extends the ancestor key's path — the ancestor entity itself
included. The store is a finite map from keys to explicit property
lists, modelled single-kind and single-namespace (no settled claim
crosses kinds or namespaces). -/

/-- An error from the store client: an HTTP-ish code and a message. -/
structure JsError where
  code : Nat
  message : String
deriving DecidableEq

/-- The outcome of a promise: fulfilled with a value, or rejected. -/
inductive Settled (α : Type) where
  | fulfilled (v : α)
  | rejected (e : JsError)
deriving DecidableEq

/-- The store contents: one explicit property list per key. -/
abbrev Store := List (Key × List Property)

/-- Does the store hold an entity at this key? -/
def storeHasKey (s : Store) (k : Key) : Bool :=
  s.any (fun e => e.1 = k)

/-- The entity data at a key, if present. -/
def storeGet (s : Store) (k : Key) : Option (List Property) :=
  (s.find? (fun e => e.1 = k)).map Prod.snd

/-- Client `update`: replaces the entity at its key, rejecting with
`{400, 'no entity to update'}` when the key is absent. -/
def storeUpdate (s : Store) (e : ExplicitEntity) : Except JsError Store :=
  if storeHasKey s e.key then
    .ok (s.map (fun p => if p.1 = e.key then (e.key, e.data) else p))
  else .error ⟨400, "no entity to update"⟩

/-- Client `upsert`: replace when present, append when absent. -/
def storeUpsert (s : Store) (e : ExplicitEntity) : Except JsError Store :=
  if storeHasKey s e.key then
    .ok (s.map (fun p => if p.1 = e.key then (e.key, e.data) else p))
  else .ok (s ++ [(e.key, e.data)])

/-- A batch of client updates (the batch RPC issued by `_patch`). -/
def storeUpdateMany (s : Store) (es : List ExplicitEntity) : Except JsError Store :=
  es.foldlM storeUpdate s

/-! ## The service operations -/

/-- JavaScript truthiness of the id argument, deciding the `id ? get :
find` branch in `_patch` and `_remove`: `0`, the empty string, `null` and
`undefined` are falsy; every other id (objects included) is truthy. -/
def jsTruthyId : IdArg → Bool
  | .str s => s ≠ ""
  | .int n => n ≠ 0
  | .undefined => false
  | .null => false
  | .comp _ => true

/-- `_get` (`src/index.js` lines 46-62, without `$select`, which no claim
exercises): resolve the key, fetch, flatten with the key's id, reject with
NotFound (`code 404`) when absent. -/
def getModel (svc : ServiceOpts) (store : Store) (id : IdArg) :
    Settled PlainRecord :=
  let key := makeKey svc id none
  match storeGet store key with
  | some props =>
    .fulfilled (entityToPlainFlat svc.idProp key (props.map (fun p => (p.name, p.value))))
  | none => .rejected ⟨404, "NotFound"⟩

/-- `_find` with an empty query (`src/index.js` lines 149-212, no filters,
no ancestor, no `$select`): every stored entity of the service's kind,
flattened with its key's id. -/
def findAllModel (svc : ServiceOpts) (store : Store) : List PlainRecord :=
  store.map (fun e => entityToPlainFlat svc.idProp e.1 (e.2.map (fun p => (p.name, p.value))))

/-- `_find` with an `ancestor` in the query (`src/index.js` lines 163-167
and 207-212): scope the query under `makeKey(ancestor)` (datastore
ancestor scope: the ancestor's path is a prefix of the result's path, the
ancestor entity itself included), flatten, then post-filter with
`data.filter(({ id }) => id !== ancestor)` — note the destructured literal
property name `id`, not the configured `this.id`. -/
def findAncestorModel (svc : ServiceOpts) (store : Store) (ancestor : Value) :
    List PlainRecord :=
  let ancestorKey := makeKey svc (idArgOfValue ancestor) none
  let raw := store.filter (fun e => ancestorKey.path.isPrefixOf e.1.path)
  let flat := raw.map (fun e => entityToPlainFlat svc.idProp e.1 (e.2.map (fun p => (p.name, p.value))))
  flat.filter (fun r => decide (objGet r "id" ≠ some ancestor))

/-- The fulfilled value of `_update`: either the written record, or — this
is the slip in the source — a NotFound error *object* handed to the `then`
chain as an ordinary resolution value. -/
inductive UpdateResult where
  | record (r : PlainRecord)
  | notFoundObject (message : String)
deriving DecidableEq

/-- The interpolated message of `getNotFound(id)` for a primitive id. -/
def notFoundMessage (id : IdArg) : String :=
  "No record found for id '" ++
    (match id with
     | .str s => s
     | .int n => toString n
     | .undefined => "undefined"
     | .null => "null"
     | .comp _ => "[object Object]") ++ "'"

/-- `_update` (`src/index.js` lines 97-118): build the key and explicit
entity, call `upsert` when `query.create` is set and strict `update`
otherwise, resolve with the flattened entity on success; on failure the
`catch` handler *returns* `getNotFound(id)` for the store's
`{400, 'no entity to update'}` failure — fulfilling the promise with the
error object — and rethrows anything else. -/
def updateModel (svc : ServiceOpts) (store : Store) (id : IdArg)
    (data : PlainRecord) (createFlag : Bool)
    (dontIndex : List String) (autoIndex : Bool) :
    Settled UpdateResult × Store :=
  let key := makeKey svc id none
  let entity := makeExplicitEntityOne dontIndex autoIndex ⟨key, data⟩
  match (if createFlag then storeUpsert store entity else storeUpdate store entity) with
  | .ok s1 => (.fulfilled (.record (entityToPlain svc.idProp entity)), s1)
  | .error err =>
    if err.code = 400 ∧ err.message = "no entity to update" then
      (.fulfilled (.notFoundObject (notFoundMessage id)), store)
    else (.rejected err, store)

/-- `Object.assign({}, current, update)` in `_patch`'s `makeNewEntity`. -/
def mergeRecords (current update : PlainRecord) : PlainRecord :=
  update.foldl (fun acc p => objSet acc p.1 p.2) current

/-- `makeNewEntity` in `_patch` (`src/index.js` lines 128-133): re-key
from the fetched record's id property and shallowly merge the patch data
over it. -/
def makeNewEntity (svc : ServiceOpts) (data : PlainRecord)
    (current : PlainRecord) : Entity :=
  ⟨makeKey svc (idArgOfValue ((objGet current svc.idProp).getD .vundefined)) none,
   mergeRecords current data⟩

/-- A single record or a set, as `_patch` / `_remove` resolve. -/
inductive ServiceOut where
  | one (r : PlainRecord)
  | many (rs : List PlainRecord)
deriving DecidableEq

/-- `_patch` (`src/index.js` lines 120-147): take the single-get branch
when the id is truthy and the query branch otherwise; rebuild and merge
each fetched record, expand, batch-update, and resolve with the flattened
written entities. -/
def patchModel (svc : ServiceOpts) (store : Store) (id : IdArg)
    (data : PlainRecord) (dontIndex : List String) (autoIndex : Bool) :
    Settled ServiceOut × Store :=
  if jsTruthyId id then
    match getModel svc store id with
    | .rejected e => (.rejected e, store)
    | .fulfilled current =>
      let entity := makeExplicitEntityOne dontIndex autoIndex (makeNewEntity svc data current)
      match storeUpdate store entity with
      | .ok s1 => (.fulfilled (.one (entityToPlain svc.idProp entity)), s1)
      | .error e => (.rejected e, store)
  else
    let results := findAllModel svc store
    let entities := (results.map (makeNewEntity svc data)).map
      (makeExplicitEntityOne dontIndex autoIndex)
    match storeUpdateMany store entities with
    | .ok s1 => (.fulfilled (.many (entities.map (entityToPlain svc.idProp))), s1)
    | .error e => (.rejected e, store)

/-- `_remove` (`src/index.js` lines 214-236): same read phase as `_patch`;
re-key each fetched record from its id property, delete the batch, and
resolve with the pre-delete record(s). -/
def removeModel (svc : ServiceOpts) (store : Store) (id : IdArg) :
    Settled ServiceOut × Store :=
  if jsTruthyId id then
    match getModel svc store id with
    | .rejected e => (.rejected e, store)
    | .fulfilled r =>
      let key := makeKey svc (idArgOfValue ((objGet r svc.idProp).getD .vundefined)) none
      (.fulfilled (.one r), store.filter (fun e => decide (e.1 ≠ key)))
  else
    let rs := findAllModel svc store
    let keys := rs.map (fun r => makeKey svc (idArgOfValue ((objGet r svc.idProp).getD .vundefined)) none)
    (.fulfilled (.many rs), store.filter (fun e => decide (¬ keys.contains e.1)))

/-! ## Spec-side notions, for the refinement claims

The spec (§4.1, §4.3) speaks of identifiers and filter values that "parse
fully" as an integer / a decimal number. These definitions follow the
spec's words — a whole-string numeral — to be compared with the source's
prefix-parsing `parseInt` / `parseFloat`. -/

/-- Spec: "the identifier parses fully as an integer" — an optional sign
followed by one or more decimal digits, consuming the entire string. -/
def specFullyInteger (s : String) : Bool :=
  match s.data with
  | [] => false
  | c :: rest =>
    let ds := if c = '+' ∨ c = '-' then rest else c :: rest
    decide (ds ≠ []) && ds.all Char.isDigit

/-- Spec: "string operator values that parse fully as a decimal number" —
an optional sign, digits with an optional decimal point (at least one
digit overall), consuming the entire string. -/
def specFullyDecimal (s : String) : Bool :=
  match s.data with
  | [] => false
  | c :: rest =>
    let l := if c = '+' ∨ c = '-' then rest else c :: rest
    let intDs := l.takeWhile Char.isDigit
    match l.drop intDs.length with
    | [] => decide (intDs ≠ [])
    | '.' :: r2 => (decide (intDs ≠ []) || decide (r2 ≠ [])) && r2.all Char.isDigit
    | _ => false

/-! ## Helper lemmas on record operations -/

theorem objGet_cons (a : String) (b : Value) (t : PlainRecord) (m : String) :
    objGet ((a, b) :: t) m = if a = m then some b else objGet t m := by
  by_cases h : a = m <;> simp [objGet, List.find?_cons, h]

theorem objGet_objSet_self (r : PlainRecord) (n : String) (v : Value) :
    objGet (objSet r n v) n = some v := by
  induction r with
  | nil => simp [objSet, objGet_cons]
  | cons p t ih =>
    obtain ⟨a, b⟩ := p
    by_cases h : a = n
    · simp [objSet, h, objGet_cons]
    · simp [objSet, h, objGet_cons, ih]

theorem objGet_objSet_ne (r : PlainRecord) (n m : String) (v : Value)
    (h : m ≠ n) :
    objGet (objSet r n v) m = objGet r m := by
  have hnm : ¬ n = m := Ne.symm h
  induction r with
  | nil => simp [objSet, objGet_cons, hnm]
  | cons p t ih =>
    obtain ⟨a, b⟩ := p
    by_cases ha : a = n
    · subst ha
      simp [objSet, objGet_cons, hnm]
    · simp [objSet, ha, objGet_cons, ih]

theorem objGet_foldl_objSet_not_mem (ps : List Property) (acc : PlainRecord)
    (m : String) (h : ∀ p ∈ ps, p.name ≠ m) :
    objGet (ps.foldl (fun flat p => objSet flat p.name p.value) acc) m = objGet acc m := by
  induction ps generalizing acc with
  | nil => rfl
  | cons q t ih =>
    simp only [List.foldl_cons]
    rw [ih _ (fun p hp => h p (List.mem_cons_of_mem _ hp))]
    exact objGet_objSet_ne _ _ _ _ (Ne.symm (h q (List.mem_cons_self _ _)))

theorem objGet_foldl_objSet (ps : List Property) (acc : PlainRecord) (m : String)
    (hnd : (ps.map Property.name).Nodup) :
    objGet (ps.foldl (fun flat p => objSet flat p.name p.value) acc) m =
      match ps.find? (fun p => p.name = m) with
      | some p => some p.value
      | none => objGet acc m := by
  induction ps generalizing acc with
  | nil => rfl
  | cons q t ih =>
    simp only [List.map_cons, List.nodup_cons] at hnd
    by_cases h : q.name = m
    · subst h
      have hnotin : ∀ p ∈ t, p.name ≠ q.name := by
        intro p hp e
        exact hnd.1 (e ▸ List.mem_map_of_mem Property.name hp)
      simp only [List.foldl_cons]
      rw [objGet_foldl_objSet_not_mem t _ _ hnotin]
      simp [List.find?_cons, objGet_objSet_self]
    · simp only [List.foldl_cons]
      rw [ih _ hnd.2]
      cases hf : t.find? (fun p => p.name = m) with
      | some p => simp [List.find?_cons, h, hf]
      | none => simp [List.find?_cons, h, hf, objGet_objSet_ne _ _ _ _ (Ne.symm h)]

theorem objGet_flattenProps (ps : List Property) (m : String)
    (hnd : (ps.map Property.name).Nodup) :
    objGet (flattenProps ps) m = (ps.find? (fun p => p.name = m)).map Property.value := by
  rw [flattenProps, objGet_foldl_objSet ps [] m hnd]
  cases ps.find? (fun p => p.name = m) <;> rfl

theorem addExclusions_name (di : List String) (ai : Bool) (n : String) (v : Value) :
    (addExclusions di ai n v).name = n := by
  unfold addExclusions
  split
  · rfl
  · split <;> rfl

theorem addExclusions_value (di : List String) (ai : Bool) (n : String) (v : Value) :
    (addExclusions di ai n v).value = v := by
  unfold addExclusions
  split
  · rfl
  · split <;> rfl

theorem expandData_names (di : List String) (ai : Bool) (data : PlainRecord) :
    (expandData di ai data).map Property.name = data.map Prod.fst := by
  simp [expandData, List.map_map, Function.comp_def, addExclusions_name]

theorem expandData_base (di : List String) (ai : Bool) (data : PlainRecord) :
    (expandData di ai data).map (fun p => (p.name, p.value)) = data := by
  simp [expandData, List.map_map, Function.comp_def, addExclusions_name, addExclusions_value]

theorem find?_expandData (di : List String) (ai : Bool) (data : PlainRecord) (m : String) :
    (expandData di ai data).find? (fun p => p.name = m) =
      (data.find? (fun p => p.1 = m)).map (fun p => addExclusions di ai p.1 p.2) := by
  have hpred : ((fun p : Property => decide (p.name = m)) ∘
      fun p : String × Value => addExclusions di ai p.1 p.2) =
      (fun p : String × Value => decide (p.1 = m)) := by
    funext p
    simp [Function.comp_def, addExclusions_name]
  rw [expandData, List.find?_map, hpred]

mutual
theorem isBig_iff_leaf : ∀ (v : Value), isBig v = true ↔ ∃ m ∈ leafSizes v, 1500 < m
  | .vstr s => by simp [isBig, leafSizes]
  | .vnum q => by simp [isBig, leafSizes]
  | .vbool b => by simp [isBig, leafSizes]
  | .vnull => by simp [isBig, leafSizes]
  | .vundefined => by simp [isBig, leafSizes]
  | .vbin bs => by simp [isBig, leafSizes]
  | .vobj fs => by
    rw [show isBig (.vobj fs) = isBigFields fs from rfl,
        show leafSizes (.vobj fs) = leafSizesFields fs from rfl]
    exact isBigFields_iff_leaf fs
theorem isBigFields_iff_leaf :
    ∀ (fs : ObjFields), isBigFields fs = true ↔ ∃ m ∈ leafSizesFields fs, 1500 < m
  | .nil => by simp [isBigFields, leafSizesFields]
  | .fcons n v rest => by
    simp [isBigFields, leafSizesFields, Bool.or_eq_true,
      isBig_iff_leaf v, isBigFields_iff_leaf rest, or_and_right, exists_or]
end

/-- A service with the default id property, kind `Person`, no namespace,
`autoIndex` off — the configuration the repository's tests use. -/
def svcDefault : ServiceOpts := ⟨"id", "Person", none, false⟩

/-- The data attached by `createEntity` is the item itself, whichever
branch of the id lookup is taken. -/
theorem createEntity_data (svc : ServiceOpts) (item : PlainRecord) :
    (createEntity svc item).data = item := by
  unfold createEntity
  cases objGet item svc.idProp <;> rfl

/-! ## Claims -/

/-- C1: for every flat record `R` without the id property (names unique,
as for any JavaScript object), expanding `R` into the explicit property
list (`makeExplicitEntity`) and flattening back (`entityToPlain`) yields a
record equal to `R` on every property, with the id property re-synthesized
as the last element of the entity key's path. -/
theorem c1_roundtrip (idProp : String) (key : Key) (R : PlainRecord)
    (di : List String) (ai : Bool)
    (hnd : (R.map Prod.fst).Nodup) (hid : objGet R idProp = none) :
    (∀ p, p ≠ idProp →
      objGet (entityToPlain idProp (makeExplicitEntityOne di ai ⟨key, R⟩)) p = objGet R p)
    ∧ objGet (entityToPlain idProp (makeExplicitEntityOne di ai ⟨key, R⟩)) idProp
      = some (pathLast key) := by
  have hnames : ((expandData di ai R).map Property.name).Nodup := by
    rw [expandData_names]; exact hnd
  constructor
  · intro p hp
    rw [entityToPlain, makeExplicitEntityOne,
        objGet_objSet_ne _ _ _ _ hp,
        objGet_flattenProps _ _ hnames,
        find?_expandData]
    rw [objGet]
    cases R.find? (fun q => q.1 = p) with
    | none => rfl
    | some q => simp [addExclusions_value]
  · rw [entityToPlain, makeExplicitEntityOne, objGet_objSet_self]

/-- Witness for C1 at a concrete record and key. -/
theorem c1_roundtrip_witness :
    (([("age", Value.vnum 44)] : PlainRecord).map Prod.fst).Nodup
    ∧ objGet [("age", Value.vnum 44)] "id" = none
    ∧ ((∀ p, p ≠ "id" →
        objGet (entityToPlain "id" (makeExplicitEntityOne [] false
          ⟨⟨[.str "Person", .str "Bob"], none⟩, [("age", Value.vnum 44)]⟩)) p
          = objGet [("age", Value.vnum 44)] p)
      ∧ objGet (entityToPlain "id" (makeExplicitEntityOne [] false
          ⟨⟨[.str "Person", .str "Bob"], none⟩, [("age", Value.vnum 44)]⟩)) "id"
          = some (pathLast ⟨[.str "Person", .str "Bob"], none⟩)) :=
  ⟨by decide, by decide,
    c1_roundtrip "id" ⟨[.str "Person", .str "Bob"], none⟩ [("age", Value.vnum 44)]
      [] false (by decide) (by decide)⟩

/-- C9: `entityToPlain` sets the id property of the returned record to the
last element of the entity key's path, overriding any stored property with
the configured id property's name — a stored property named like the id
property can never leak into the result's id field. -/
theorem c9_id_overrides (idProp : String) (key : Key) (props : List Property)
    (w : Value) (flag : Option Bool) (hmem : ⟨idProp, w, flag⟩ ∈ props) :
    objGet (entityToPlain idProp ⟨key, props⟩) idProp = some (pathLast key) := by
  rw [entityToPlain, objGet_objSet_self]

/-- Witness for C9: a stored property `id: "impostor"` is overridden by the
key's last path element. -/
theorem c9_id_overrides_witness :
    (⟨"id", Value.vstr "impostor", none⟩ : Property) ∈
      [(⟨"id", Value.vstr "impostor", none⟩ : Property)]
    ∧ objGet (entityToPlain "id"
        ⟨⟨[.str "Person", .str "Bob"], none⟩,
         [⟨"id", Value.vstr "impostor", none⟩]⟩) "id"
      = some (pathLast ⟨[.str "Person", .str "Bob"], none⟩) :=
  ⟨by decide,
    c9_id_overrides "id" ⟨[.str "Person", .str "Bob"], none⟩
      [⟨"id", Value.vstr "impostor", none⟩] (Value.vstr "impostor") none (by decide)⟩

/-- C2, counterexample: a record created with `{id: "Bob", age: 44}` is
passed wholesale into `makeExplicitEntity` by `_create` (`src/index.js`
lines 72-82 never strip `this.id` from the item), so the expanded property
list *does* contain a property whose name equals the configured id
property name — refuting the claim that it never does. -/
theorem c2_cex_id_stored :
    ((makeExplicitEntityOne [] false
        (createEntity svcDefault [("id", Value.vstr "Bob"), ("age", Value.vnum 44)])).data.any
      (fun p => p.name = svcDefault.idProp)) = true
    ∧ ((makeExplicitEntityOne [] false
        (createEntity svcDefault [("id", Value.vstr "Bob"), ("age", Value.vnum 44)])).data.map
      Property.name) = ["id", "age"] := by
  constructor <;> rfl

/-- C2, amended: the expanded property list written by create (and
update/patch) preserves every property of the input record — the id
property *included* when the record carries one; the id also lives in the
key, and on read the id property is always synthesized from the key,
overriding whatever was stored under that name. -/
theorem c2_amended_id_kept (svc : ServiceOpts) (item : PlainRecord)
    (di : List String) (ai : Bool) :
    ((makeExplicitEntityOne di ai (createEntity svc item)).data.map
      (fun p => (p.name, p.value)) = item)
    ∧ (∀ e : ExplicitEntity,
        objGet (entityToPlain svc.idProp e) svc.idProp = some (pathLast e.key)) := by
  constructor
  · rw [makeExplicitEntityOne, createEntity_data, expandData_base]
  · intro e
    rw [entityToPlain, objGet_objSet_self]

/-- C5: with `autoIndex` enabled, a string or buffer property of exactly
1500 bytes is indexed (`excludeFromIndexes` false) and one of 1501 bytes
or more is excluded; an object property is excluded iff some leaf value
inside it exceeds 1500 bytes; numbers, booleans and `null` are never
excluded by size; and a property named in `dontIndex` is excluded
regardless of its value and of the `autoIndex` flag. -/
theorem c5_autoindex_boundary (di : List String) (name : String) :
    (∀ (v : Value) (ai : Bool), name ∈ di →
      addExclusions di ai name v = ⟨name, v, some true⟩)
    ∧ (name ∉ di →
        (∀ s : String, s.utf8ByteSize = 1500 →
          (addExclusions di true name (.vstr s)).excludeFromIndexes = some false)
        ∧ (∀ s : String, 1501 ≤ s.utf8ByteSize →
          (addExclusions di true name (.vstr s)).excludeFromIndexes = some true)
        ∧ (∀ bs : List Nat, bs.length = 1500 →
          (addExclusions di true name (.vbin bs)).excludeFromIndexes = some false)
        ∧ (∀ bs : List Nat, 1501 ≤ bs.length →
          (addExclusions di true name (.vbin bs)).excludeFromIndexes = some true)
        ∧ (∀ fs : ObjFields,
          (addExclusions di true name (.vobj fs)).excludeFromIndexes = some true
            ↔ ∃ m ∈ leafSizes (.vobj fs), 1500 < m)
        ∧ (∀ q : ℚ,
          (addExclusions di true name (.vnum q)).excludeFromIndexes = some false)
        ∧ (∀ b : Bool,
          (addExclusions di true name (.vbool b)).excludeFromIndexes = some false)
        ∧ (addExclusions di true name .vnull).excludeFromIndexes = some false) := by
  constructor
  · intro v ai h
    rw [addExclusions, if_pos (List.elem_eq_true_of_mem h)]
  · intro h
    have hnc : ¬ (di.contains name = true) := by simpa using h
    have key : ∀ v : Value,
        (addExclusions di true name v).excludeFromIndexes = some (isBig v) := by
      intro v
      rw [addExclusions, if_neg hnc, if_pos rfl]
    refine ⟨?_, ?_, ?_, ?_, ?_, ?_, ?_, ?_⟩
    · intro s hs
      rw [key]
      simp [isBig, hs]
    · intro s hs
      rw [key]
      simp only [isBig, Option.some_inj, decide_eq_true_eq]
      omega
    · intro bs hbs
      rw [key]
      simp [isBig, hbs]
    · intro bs hbs
      rw [key]
      simp only [isBig, Option.some_inj, decide_eq_true_eq]
      omega
    · intro fs
      rw [key]
      simp only [Option.some_inj]
      exact isBig_iff_leaf (.vobj fs)
    · intro q
      rw [key]
      simp [isBig]
    · intro b
      rw [key]
      simp [isBig]
    · rw [key]
      simp [isBig]

/-- Witness for C5: a `dontIndex` name is excluded with `autoIndex` off,
and an unlisted small number is not excluded. -/
theorem c5_autoindex_boundary_witness :
    ("age" ∈ ["age"]
      ∧ addExclusions ["age"] false "age" (.vnum 44) = ⟨"age", .vnum 44, some true⟩)
    ∧ ("children" ∉ ["age"]
      ∧ (addExclusions ["age"] true "children" (.vnum 2)).excludeFromIndexes = some false) :=
  ⟨⟨by decide, (c5_autoindex_boundary ["age"] "age").1 (.vnum 44) false (by decide)⟩,
   ⟨by decide, (((c5_autoindex_boundary ["age"] "children").2 (by decide)).2.2.2.2.2.1) 2⟩⟩

theorem fieldsToList_listToFields (l : List (String × Value)) :
    fieldsToList (listToFields l) = l := by
  induction l with
  | nil => rfl
  | cons p t ih =>
    obtain ⟨n, v⟩ := p
    simp [listToFields, fieldsToList, ih]

/-- C7: for a query field whose value is an operator mapping, exactly one
`(field, native operator, value)` comparison is emitted per entry whose
key is in the recognized set `{$gt, $gte, $lt, $lte, =}`, and entries with
unrecognized operator keys (`$ne`, `$in`, `$nin`, `$or`, ...) emit nothing
— they are silently dropped, never rejected (the translation is a total
function). -/
theorem c7_operator_translation (field : String) (entries : List (String × Value)) :
    ((translateFieldFilter field (.vobj (listToFields entries))).length
      = (entries.filter (fun p => (opMap p.1).isSome)).length)
    ∧ (∀ op val nativeOp, (op, val) ∈ entries → opMap op = some nativeOp →
        (field, nativeOp, coerceFilterValue val)
          ∈ translateFieldFilter field (.vobj (listToFields entries)))
    ∧ ((∀ p ∈ entries, opMap p.1 = none) →
        translateFieldFilter field (.vobj (listToFields entries)) = []) := by
  have hnorm : normalizeFilterValue (.vobj (listToFields entries)) = entries := by
    rw [normalizeFilterValue, fieldsToList_listToFields]
  refine ⟨?_, ?_, ?_⟩
  · rw [translateFieldFilter, hnorm]
    clear hnorm
    induction entries with
    | nil => rfl
    | cons p t ih =>
      cases hop : opMap p.1 <;>
        simp [List.filterMap_cons, List.filter_cons, hop, ih]
  · intro op val nativeOp hmem hop
    rw [translateFieldFilter, hnorm]
    exact List.mem_filterMap.mpr ⟨(op, val), hmem, by simp [hop]⟩
  · intro hall
    rw [translateFieldFilter, hnorm]
    clear hnorm
    induction entries with
    | nil => rfl
    | cons p t ih =>
      rw [List.filterMap_cons, hall p (List.mem_cons_self _ _)]
      exact ih (fun q hq => hall q (List.mem_cons_of_mem _ hq))

/-- Witness for C7: a `$gt` entry is emitted as `>` while a `$ne` entry is
dropped. -/
theorem c7_operator_translation_witness :
    (("$gt", Value.vnum 5) ∈ [("$gt", Value.vnum 5), ("$ne", Value.vnum 3)]
      ∧ opMap "$gt" = some ">"
      ∧ ("age", ">", coerceFilterValue (Value.vnum 5))
        ∈ translateFieldFilter "age"
            (.vobj (listToFields [("$gt", Value.vnum 5), ("$ne", Value.vnum 3)])))
    ∧ ((∀ p ∈ [("$ne", Value.vnum 3)], opMap p.1 = none)
      ∧ translateFieldFilter "age" (.vobj (listToFields [("$ne", Value.vnum 3)])) = []) :=
  ⟨⟨by decide, by decide,
      (c7_operator_translation "age" [("$gt", Value.vnum 5), ("$ne", Value.vnum 3)]).2.1
        "$gt" (Value.vnum 5) ">" (by decide) (by decide)⟩,
   ⟨by decide,
      (c7_operator_translation "age" [("$ne", Value.vnum 3)]).2.2 (by decide)⟩⟩

theorem not_ws_of_digit (c : Char) (h : c.isDigit = true) : isJsWhitespace c = false := by
  cases hw : isJsWhitespace c with
  | false => rfl
  | true =>
    exfalso
    have hc : c = ' ' ∨ c = '\t' ∨ c = '\n' ∨ c = '\r' := by
      simpa [isJsWhitespace] using hw
    rcases hc with rfl | rfl | rfl | rfl <;> exact absurd h (by decide)

theorem digit_ne_x (c : Char) (h : c.isDigit = true) : ¬(c = 'x' ∨ c = 'X') := by
  rintro (rfl | rfl) <;> exact absurd h (by decide)

theorem parseIntCore_ne_none_of_digits (sgn : ℤ) (l1 : List Char)
    (hne : l1 ≠ []) (hall : ∀ c ∈ l1, c.isDigit = true) :
    parseIntCore sgn l1 ≠ none := by
  unfold parseIntCore
  split
  · rename_i x rest
    have hx : x.isDigit = true := hall x (List.mem_cons_of_mem _ (List.mem_cons_self _ _))
    rw [if_neg (digit_ne_x x hx)]
    simp
  · cases l1 with
    | nil => exact absurd rfl hne
    | cons c t =>
      have hc : c.isDigit = true := hall c (List.mem_cons_self _ _)
      simp [List.takeWhile_cons, hc]



theorem parseIntJS_ne_none_of_fullyInteger (s : String)
    (h : specFullyInteger s = true) : parseIntJS s ≠ none := by
  rw [specFullyInteger] at h
  cases hsd : s.data with
  | nil => rw [hsd] at h; exact absurd h (by decide)
  | cons c rest =>
    rw [hsd] at h
    simp only [Bool.and_eq_true, decide_eq_true_eq, List.all_eq_true] at h
    by_cases hsign : c = '+' ∨ c = '-'
    · rw [if_pos hsign] at h
      obtain ⟨hne, hall⟩ := h
      have hall' : ∀ d ∈ rest, d.isDigit = true := fun d hd => hall d hd
      rcases hsign with rfl | rfl
      · rw [parseIntJS, hsd]
        simp only [List.dropWhile_cons, show isJsWhitespace '+' = false from by decide,
          Bool.false_eq_true, if_false]
        exact parseIntCore_ne_none_of_digits 1 rest hne hall'
      · rw [parseIntJS, hsd]
        simp only [List.dropWhile_cons, show isJsWhitespace '-' = false from by decide,
          Bool.false_eq_true, if_false]
        exact parseIntCore_ne_none_of_digits (-1) rest hne hall'
    · rw [if_neg hsign] at h
      obtain ⟨hne, hall⟩ := h
      have hall' : ∀ d ∈ c :: rest, d.isDigit = true := fun d hd => hall d hd
      have hcd : c.isDigit = true := hall' c (List.mem_cons_self _ _)
      rw [parseIntJS, hsd]
      simp only [List.dropWhile_cons, not_ws_of_digit c hcd, Bool.false_eq_true, if_false]
      split
      · rename_i heq
        exfalso
        have : c = '-' := by
          have := heq
          injection this with h1 h2
        exact hsign (Or.inr this)
      · rename_i heq
        exfalso
        have : c = '+' := by
          have := heq
          injection this with h1 h2
        exact hsign (Or.inl this)
      · exact parseIntCore_ne_none_of_digits 1 (c :: rest) (by simp) hall'



theorem parseFloatCore_ne_none (sgn : ℤ) (l : List Char)
    (h : l.takeWhile Char.isDigit ≠ [] ∨
         ∃ r2 : List Char, l.drop (l.takeWhile Char.isDigit).length = '.' :: r2 ∧
           r2.takeWhile Char.isDigit ≠ []) :
    parseFloatCore sgn l ≠ none := by
  simp only [parseFloatCore]
  split
  · rename_i hcond
    exfalso
    rcases h with h | ⟨r2, hdrop, hne⟩
    · exact h (List.isEmpty_iff.mp hcond.1)
    · have h2 := hcond.2
      rw [hdrop] at h2
      exact hne (List.isEmpty_iff.mp h2)
  · split <;> simp

theorem parseFloatJS_ne_none_of_fullyDecimal (s : String)
    (h : specFullyDecimal s = true) : parseFloatJS s ≠ none := by
  rw [specFullyDecimal] at h
  cases hsd : s.data with
  | nil => rw [hsd] at h; exact absurd h (by decide)
  | cons c rest =>
    rw [hsd] at h
    simp only [] at h
    have hcore : ∀ l : List Char,
        (match l.drop (l.takeWhile Char.isDigit).length with
         | [] => decide (l.takeWhile Char.isDigit ≠ [])
         | '.' :: r2 =>
           (decide (l.takeWhile Char.isDigit ≠ []) || decide (r2 ≠ [])) && r2.all Char.isDigit
         | _ => false) = true →
        (l.takeWhile Char.isDigit ≠ [] ∨
         ∃ r2 : List Char, l.drop (l.takeWhile Char.isDigit).length = '.' :: r2 ∧
           r2.takeWhile Char.isDigit ≠ []) := by
      intro l hl
      split at hl
      · rename_i heq
        left
        simpa using hl
      · rename_i r2 heq
        simp only [Bool.and_eq_true, Bool.or_eq_true, decide_eq_true_eq,
          List.all_eq_true] at hl
        obtain ⟨hne, hall⟩ := hl
        rcases hne with hne | hne
        · exact Or.inl hne
        · right
          refine ⟨r2, heq, ?_⟩
          cases r2 with
          | nil => exact absurd rfl hne
          | cons e t =>
            have he : e.isDigit = true := hall e (List.mem_cons_self _ _)
            simp [List.takeWhile_cons, he]
      · exact absurd hl (by decide)
    have hc := hcore _ h
    by_cases hsign : c = '+' ∨ c = '-'
    · rcases hsign with rfl | rfl
      · rw [if_pos (Or.inl rfl)] at hc
        rw [parseFloatJS, hsd]
        simp only [List.dropWhile_cons, show isJsWhitespace '+' = false from by decide,
          Bool.false_eq_true, if_false]
        exact parseFloatCore_ne_none 1 rest hc
      · rw [if_pos (Or.inr rfl)] at hc
        rw [parseFloatJS, hsd]
        simp only [List.dropWhile_cons, show isJsWhitespace '-' = false from by decide,
          Bool.false_eq_true, if_false]
        exact parseFloatCore_ne_none (-1) rest hc
    · rw [if_neg hsign] at hc
      have hcnotws : isJsWhitespace c = false := by
        by_cases hcd : c.isDigit = true
        · exact not_ws_of_digit c hcd
        · have hdot : c = '.' := by
            rcases hc with hne | ⟨r2, hdrop, _⟩
            · exfalso
              apply hne
              simp [List.takeWhile_cons, hcd]
            · rw [show List.takeWhile Char.isDigit (c :: rest) = [] from by
                simp [List.takeWhile_cons, hcd]] at hdrop
              simp only [List.length_nil, List.drop_zero, List.cons.injEq] at hdrop
              exact hdrop.1
          rw [hdot]
          decide
      rw [parseFloatJS, hsd]
      simp only [List.dropWhile_cons, hcnotws, Bool.false_eq_true, if_false]
      split
      · rename_i heq
        exfalso
        have hcm : c = '-' := by
          have := heq
          injection this with h1 h2
        exact hsign (Or.inr hcm)
      · rename_i heq
        exfalso
        have hcp : c = '+' := by
          have := heq
          injection this with h1 h2
        exact hsign (Or.inl hcp)
      · exact parseFloatCore_ne_none 1 (c :: rest) hc

/-- C4, counterexample: the id `"12px"` is not entirely numeric, yet
`makeKey` coerces it to the integer `12` (`parseInt` consumes the numeric
*prefix*), so the identifier does not keep its string form as the claim
states. -/
theorem c4_cex_prefix_coercion :
    specFullyInteger "12px" = false
    ∧ (makeKey svcDefault (.str "12px") none).path = [.str "Person", .int 12] := by
  exact ⟨by decide, by decide⟩

/-- C4, amended: a non-composite string identifier is coerced to integer
form exactly when `parseInt` accepts it — that is, when it has a parsable
integer *prefix*, whose value becomes the key id — and keeps its string
form only when it has no such prefix; identifiers that parse fully as an
integer are always coerced, so the string id `"42"` and the integer id
`42` resolve to the same key. -/
theorem c4_amended_parseInt_coercion :
    (∀ (svc : ServiceOpts) (s : String) (n : ℤ), parseIntJS s = some n →
      (makeKey svc (.str s) none).path = [.str svc.kind, .int n])
    ∧ (∀ (svc : ServiceOpts) (s : String), parseIntJS s = none →
      (makeKey svc (.str s) none).path = [.str svc.kind, .str s])
    ∧ (∀ s : String, specFullyInteger s = true → parseIntJS s ≠ none)
    ∧ (∀ svc : ServiceOpts, makeKey svc (.str "42") none = makeKey svc (.int 42) none) := by
  have h42 : parseIntJS "42" = some 42 := by decide
  exact ⟨fun svc s n h => by simp [makeKey, h],
         fun svc s h => by simp [makeKey, h],
         parseIntJS_ne_none_of_fullyInteger,
         fun svc => by simp [makeKey, h42]⟩

/-- Witness for C4 (amended) at concrete identifiers. -/
theorem c4_amended_witness :
    (parseIntJS "7cm" = some 7
      ∧ (makeKey svcDefault (.str "7cm") none).path = [.str "Person", .int 7])
    ∧ (parseIntJS "Bob" = none
      ∧ (makeKey svcDefault (.str "Bob") none).path = [.str "Person", .str "Bob"])
    ∧ (specFullyInteger "1234" = true ∧ parseIntJS "1234" ≠ none) :=
  ⟨⟨by decide, c4_amended_parseInt_coercion.1 svcDefault "7cm" 7 (by decide)⟩,
   ⟨by decide, c4_amended_parseInt_coercion.2.1 svcDefault "Bob" (by decide)⟩,
   ⟨by decide, c4_amended_parseInt_coercion.2.2.1 "1234" (by decide)⟩⟩

/-- C8, counterexample: the operator value `"3.5kg"` does not parse fully
as a decimal number, yet the translator coerces it to the number `3.5`
(`parseFloat` consumes the numeric *prefix*), so it is not passed through
unchanged as the claim states. -/
theorem c8_cex_prefix_coercion :
    specFullyDecimal "3.5kg" = false
    ∧ coerceFilterValue (.vstr "3.5kg") = .vnum (mkRat 7 2) := by
  exact ⟨by decide, by decide⟩

/-- C8, amended: a string operator value is replaced by its numeric form
exactly when `parseFloat` accepts it — that is, when it starts with a
parsable decimal prefix, whose parse becomes the comparison value — and
passes through unchanged only when it has no such prefix; strings that
parse fully as a decimal number are always coerced, and non-string values
are never touched. -/
theorem c8_amended_parseFloat_coercion :
    (∀ (s : String) (q : ℚ), parseFloatJS s = some q →
      coerceFilterValue (.vstr s) = .vnum q)
    ∧ (∀ s : String, parseFloatJS s = none → coerceFilterValue (.vstr s) = .vstr s)
    ∧ (∀ s : String, specFullyDecimal s = true → parseFloatJS s ≠ none)
    ∧ (∀ v : Value, (∀ s, v ≠ .vstr s) → coerceFilterValue v = v) := by
  refine ⟨fun s q h => by simp [coerceFilterValue, h],
          fun s h => by simp [coerceFilterValue, h],
          parseFloatJS_ne_none_of_fullyDecimal,
          fun v hv => ?_⟩
  cases v with
  | vstr s => exact absurd rfl (hv s)
  | vnum q => rfl
  | vbool b => rfl
  | vnull => rfl
  | vundefined => rfl
  | vbin bs => rfl
  | vobj fs => rfl

/-- Witness for C8 (amended) at concrete operator values. -/
theorem c8_amended_witness :
    (parseFloatJS "2.5" = some (mkRat 5 2)
      ∧ coerceFilterValue (.vstr "2.5") = .vnum (mkRat 5 2))
    ∧ (parseFloatJS "Bob" = none ∧ coerceFilterValue (.vstr "Bob") = .vstr "Bob")
    ∧ (specFullyDecimal "2.5" = true ∧ parseFloatJS "2.5" ≠ none)
    ∧ ((∀ s, Value.vnull ≠ .vstr s) ∧ coerceFilterValue .vnull = .vnull) :=
  ⟨⟨by decide, c8_amended_parseFloat_coercion.1 "2.5" (mkRat 5 2) (by decide)⟩,
   ⟨by decide, c8_amended_parseFloat_coercion.2.1 "Bob" (by decide)⟩,
   ⟨by decide, c8_amended_parseFloat_coercion.2.2.1 "2.5" (by decide)⟩,
   ⟨fun s => by simp, c8_amended_parseFloat_coercion.2.2.2 .vnull (fun s => by simp)⟩⟩

/-- A service configured with id property `_id` (the repository's own test
suite registers such a service as `datastore-alt-id`). -/
def svcAltId : ServiceOpts := ⟨"_id", "Person", none, false⟩

/-- C3: the strict-vs-upsert selection and the NotFound translation in
`_update`. The upsert half of the claim holds: with `query.create` set,
updating a non-existent key succeeds and creates the record. The failure
half does not: for a missing key without the create flag, the `catch`
handler at `src/index.js` line 113 *returns* `getNotFound(id)` instead of
throwing it, so the promise *fulfills* with a NotFound error object as its
value — the call never rejects. The previous revision of this file threw
here, and the feathers service test suite the repository runs expects a
rejection: the `return` is a slip. -/
theorem c3_update_notfound_resolved :
    (updateModel svcDefault [] (.str "Ghost") [("age", Value.vnum 1)] false [] false
      = (.fulfilled (.notFoundObject "No record found for id 'Ghost'"), []))
    ∧ (updateModel svcDefault [] (.str "Ghost") [("age", Value.vnum 1)] true [] false
      = (.fulfilled (.record [("age", Value.vnum 1), ("id", Value.vstr "Ghost")]),
         [(⟨[.str "Person", .str "Ghost"], none⟩, [⟨"age", Value.vnum 1, none⟩])])) := by
  exact ⟨by decide, by decide⟩

/-- C6, counterexample: with the id property configured as `_id`, the
ancestor entity itself survives the post-filter — the filter destructures
the literal property name `id` (`src/index.js` line 166), not the
configured `this.id` — so a find with `ancestor = "A"` returns a record
whose configured id property equals `"A"`, refuting the claim for
arbitrary id property names. -/
theorem c6_cex_configured_id :
    findAncestorModel svcAltId [(⟨[.str "Person", .str "A"], none⟩, [])] (.vstr "A")
      = [[("_id", Value.vstr "A")]]
    ∧ objGet [("_id", Value.vstr "A")] "_id" = some (.vstr "A") := by
  exact ⟨by decide, by decide⟩

/-- C6, amended: the ancestor post-filter drops exactly the records whose
property *literally named* `id` strictly equals the ancestor value; with
the default id property name `id` this excludes the ancestor entity, but
with any other configured id property name the ancestor is not filtered
out. -/
theorem c6_amended_literal_id_filter (svc : ServiceOpts) (store : Store)
    (a : Value) (r : PlainRecord)
    (hmem : r ∈ findAncestorModel svc store a) :
    objGet r "id" ≠ some a := by
  simp only [findAncestorModel] at hmem
  obtain ⟨-, hpred⟩ := List.mem_filter.mp hmem
  simpa using hpred

/-- Witness for C6 (amended): a descendant record passes the filter and
its `id` differs from the ancestor. -/
theorem c6_amended_witness :
    ([("x", Value.vnum 1), ("id", Value.vstr "B")] ∈
      findAncestorModel svcDefault
        [(⟨[.str "Person", .str "A", .str "Person", .str "B"], none⟩,
          [⟨"x", Value.vnum 1, none⟩])] (.vstr "A"))
    ∧ objGet [("x", Value.vnum 1), ("id", Value.vstr "B")] "id" ≠ some (.vstr "A") :=
  ⟨by decide,
   c6_amended_literal_id_filter svcDefault
     [(⟨[.str "Person", .str "A", .str "Person", .str "B"], none⟩,
       [⟨"x", Value.vnum 1, none⟩])] (.vstr "A")
     [("x", Value.vnum 1), ("id", Value.vstr "B")] (by decide)⟩

/-- C10: a falsy id — the integer `0`, the empty string, `null` or
`undefined` — sends `_patch` and `_remove` down the query branch
(`id ? get : find`), behaving exactly as a call with no id at all: the
whole matching set is patched / removed, and the single record with that
id cannot be addressed. Concretely, patching by id `0` against a store
holding records at keys `0` and `"B"` rewrites *both* records, and
removing by id `0` deletes *both*. -/
theorem c10_falsy_id_query_branch :
    (∀ (svc : ServiceOpts) (store : Store) (data : PlainRecord)
        (di : List String) (ai : Bool),
      patchModel svc store (.int 0) data di ai = patchModel svc store .undefined data di ai
      ∧ patchModel svc store (.str "") data di ai = patchModel svc store .undefined data di ai
      ∧ patchModel svc store .null data di ai = patchModel svc store .undefined data di ai)
    ∧ (∀ (svc : ServiceOpts) (store : Store),
      removeModel svc store (.int 0) = removeModel svc store .undefined
      ∧ removeModel svc store (.str "") = removeModel svc store .undefined
      ∧ removeModel svc store .null = removeModel svc store .undefined)
    ∧ ((patchModel svcDefault
          [(⟨[.str "Person", .int 0], none⟩, [⟨"x", Value.vnum 1, none⟩]),
           (⟨[.str "Person", .str "B"], none⟩, [⟨"x", Value.vnum 2, none⟩])]
          (.int 0) [("x", Value.vnum 9)] [] false).2
        = [(⟨[.str "Person", .int 0], none⟩,
            [⟨"x", Value.vnum 9, none⟩, ⟨"id", Value.vnum 0, none⟩]),
           (⟨[.str "Person", .str "B"], none⟩,
            [⟨"x", Value.vnum 9, none⟩, ⟨"id", Value.vstr "B", none⟩])])
    ∧ (removeModel svcDefault
          [(⟨[.str "Person", .int 0], none⟩, [⟨"x", Value.vnum 1, none⟩]),
           (⟨[.str "Person", .str "B"], none⟩, [⟨"x", Value.vnum 2, none⟩])]
          (.int 0)
        = (.fulfilled (.many [[("x", Value.vnum 1), ("id", Value.vnum 0)],
             [("x", Value.vnum 2), ("id", Value.vstr "B")]]), [])) := by
  refine ⟨fun svc store data di ai => ⟨rfl, rfl, rfl⟩,
          fun svc store => ⟨rfl, rfl, rfl⟩, by decide, by decide⟩

end FeathersDatastore
